import Mathlib

/-!
# A verification model of the Eigen assignment engine and conjugate-gradient solver

This file gives a shallow embedding, in Lean 4, of the code in

* `Eigen/src/Core/MatrixBase.h` (shape traits and size queries),
* `Eigen/src/Core/OperatorEquals.h` (the assignment engine: compile-time
  unrollers and runtime loops of `MatrixBase::lazyAssign`),
* `unsupported/Eigen/src/IterativeSolvers/ConjugateGradient.h` (the low-level
  `conjugate_gradient` routine and the `ConjugateGradient` solver class),

and proves properties of that model.  Conventions of the embedding:

* compile-time extents (`RowsAtCompileTime`, ...) are `Option Nat`, with
  `none` playing the role of the `Dynamic` sentinel;
* a runtime matrix is a pair of extents together with a total coefficient
  function; writing through `coeffRef` is a functional update;
* C++ `eigen_assert` / `ei_assert` precondition failures are modelled as an
  `Except` error value (`NotInitialized`, `DimensionMismatch`);
* scalars are exact rationals (`ℚ`); the one place where IEEE non-finite
  values are observable in the claims — the final error estimate
  `sqrt(abs(absNew/absInit))` of `conjugate_gradient`, which divides by zero
  when `absInit = 0` — is modelled by an explicit value type `CGErr` that
  distinguishes a finite value `√q` from the `inf` and `nan` results of a
  division by zero.
-/

namespace EigenModel

/-- A compile-time extent: `some n` is a statically known extent `n`, `none`
is the `Dynamic` sentinel of Eigen. -/
abbrev CSize := Option Nat

/-- `SizeAtCompileTime` from `MatrixBase.h` (Traits, lines 81-84): the product
of the two compile-time extents, `Dynamic` as soon as either extent is
`Dynamic`. -/
def sizeCT : CSize → CSize → CSize
  | some r, some c => some (r * c)
  | none, _ => none
  | some _, none => none

/-- `IsVectorAtCompileTime` from `MatrixBase.h` (Traits, lines 126-128):
true iff the static row count or the static column count equals `1`
(the `Dynamic` sentinel is not `1`). -/
def isVectorCT (r c : CSize) : Bool :=
  r == some 1 || c == some 1

/-- Modelled from the spec: the fixed unrolling budget constant
`EIGEN_UNROLLING_LIMIT` referenced by `lazyAssign` (line 105 of
`OperatorEquals.h`).  Its defining header is not among the provided sources;
the era's default value `100` is used.  No theorem below depends on the
particular value. -/
def EIGEN_UNROLLING_LIMIT : Nat := 100

/-- The unroll decision of `lazyAssign` (line 105 of `OperatorEquals.h`):
`SizeAtCompileTime * OtherDerived::CoeffReadCost <= EIGEN_UNROLLING_LIMIT`.
A `Dynamic` size never unrolls (the sentinel value makes the product exceed
any reasonable budget in the C++ source). -/
def unrollDecision (sz : CSize) (cost : Nat) : Bool :=
  match sz with
  | some s => decide (s * cost ≤ EIGEN_UNROLLING_LIMIT)
  | none => false

/-- A runtime matrix (or matrix expression): runtime extents plus a total
coefficient function.  `entry i j` is `coeff(i, j)`. -/
structure Mat (α : Type) where
  rows : Nat
  cols : Nat
  entry : Nat → Nat → α

/-- Writing through `coeffRef(i, j)`: a functional update of one coefficient. -/
def matSet {α : Type} (m : Mat α) (i j : Nat) (v : α) : Mat α :=
  { m with entry := fun r c => if r = i ∧ c = j then v else m.entry r c }

/-- `MatrixBase::size()` (line 159 of `MatrixBase.h`): `rows() * cols()`. -/
def Mat.size {α : Type} (m : Mat α) : Nat := m.rows * m.cols

/-- `MatrixBase::isVector()` (line 164 of `MatrixBase.h`):
`rows()==1 || cols()==1`. -/
def Mat.isVector {α : Type} (m : Mat α) : Bool :=
  m.rows == 1 || m.cols == 1

/-- Modelled from the spec: linear coefficient read `coeff(index)` on a
vector (its definition lives in a coefficient-access header that is not among
the provided sources; the spec states linear indexing is only valid when
`isVector()`).  A row vector (`rows == 1`) is indexed along its columns, any
other vector along its rows. -/
def vecGetLin {α : Type} (m : Mat α) (k : Nat) : α :=
  if m.rows = 1 then m.entry 0 k else m.entry k 0

/-- Modelled from the spec: linear coefficient write `coeffRef(index)` on a
vector, with the same orientation convention as `vecGetLin`. -/
def vecSetLin {α : Type} (m : Mat α) (k : Nat) (v : α) : Mat α :=
  if m.rows = 1 then matSet m 0 k v else matSet m k 0 v

/-- The recursive spine of `ei_vector_operator_equals_unroller` for a known
`UnrollCount` (lines 66-92 of `OperatorEquals.h`): the specialization for
`0` is a no-op, and `UnrollCount = n + 1` first runs the unroller for `n`
and then copies linear coefficient `index = UnrollCount - 1 = n`. -/
def vecUnrollerN {α : Type} : Nat → Mat α → Mat α → Mat α
  | 0, dst, _ => dst
  | n + 1, dst, src =>
      vecSetLin (vecUnrollerN n dst src) n (vecGetLin src n)

/-- `ei_vector_operator_equals_unroller` (lines 66-98 of `OperatorEquals.h`):
compile-time recursion on `UnrollCount`; the specialization for
`UnrollCount = Dynamic` (`none`) is a no-op — an unknown size never
recurses. -/
def vecUnroller {α : Type} : CSize → Mat α → Mat α → Mat α
  | none, dst, _ => dst
  | some n, dst, src => vecUnrollerN n dst src

/-- The recursive spine of `ei_matrix_operator_equals_unroller` for a known
`UnrollCount` (lines 29-58 of `OperatorEquals.h`), decomposing the linear
index `UnrollCount - 1` as `col = (UnrollCount-1) / RowsAtCompileTime` and
`row = (UnrollCount-1) % RowsAtCompileTime`.  `R` is the destination's
`RowsAtCompileTime`; the specialization for `0` is a no-op. -/
def matUnrollerN {α : Type} (R : Nat) : Nat → Mat α → Mat α → Mat α
  | 0, dst, _ => dst
  | n + 1, dst, src =>
      matSet (matUnrollerN R n dst src) (n % R) (n / R)
        (src.entry (n % R) (n / R))

/-- `ei_matrix_operator_equals_unroller` (lines 29-64 of `OperatorEquals.h`):
the specialization for `UnrollCount = Dynamic` (`none`) is a no-op — an
unknown size never recurses. -/
def matUnroller {α : Type} (R : Nat) : CSize → Mat α → Mat α → Mat α
  | none, dst, _ => dst
  | some n, dst, src => matUnrollerN R n dst src

/-- The looped vector path of `lazyAssign` (lines 116-117 of
`OperatorEquals.h`): `for(int i = 0; i < size(); i++) coeffRef(i) = other.coeff(i)`. -/
def vecLoopRun {α : Type} (dst src : Mat α) : Mat α :=
  (List.range dst.size).foldl (fun d i => vecSetLin d i (vecGetLin src i)) dst

/-- One column of the column-major nested loop: the inner
`for(int i = 0; i < rows(); i++)` of lines 134-136 of `OperatorEquals.h`. -/
def writeCol {α : Type} (src : Mat α) (R j : Nat) (d : Mat α) : Mat α :=
  (List.range R).foldl (fun d2 i => matSet d2 i j (src.entry i j)) d

/-- The column-major looped matrix path of `lazyAssign` (lines 133-136 of
`OperatorEquals.h`): outer loop over columns, inner loop over rows. -/
def colMajorLoop {α : Type} (dst src : Mat α) : Mat α :=
  (List.range dst.cols).foldl (fun d j => writeCol src dst.rows j d) dst

/-- One row of the row-major nested loop: the inner
`for(int j = 0; j < cols(); j++)` of lines 142-144 of `OperatorEquals.h`. -/
def writeRow {α : Type} (src : Mat α) (C i : Nat) (d : Mat α) : Mat α :=
  (List.range C).foldl (fun d2 j => matSet d2 i j (src.entry i j)) d

/-- The row-major looped matrix path of `lazyAssign` (lines 140-144 of
`OperatorEquals.h`): outer loop over rows, inner loop over columns. -/
def rowMajorLoop {α : Type} (dst src : Mat α) : Mat α :=
  (List.range dst.rows).foldl (fun d i => writeRow src dst.cols i d) dst

/-- Failure values for the `ei_assert`/`eigen_assert` precondition checks. -/
inductive EigenError where
  | NotInitialized
  | DimensionMismatch
deriving DecidableEq

/-- The static (compile-time) data `MatrixBase::lazyAssign` draws its path
decisions from: the destination's and source's compile-time extents and the
source's `CoeffReadCost`. -/
structure StaticTraits where
  dstRows : CSize
  dstCols : CSize
  srcRows : CSize
  srcCols : CSize
  srcCoeffReadCost : Nat

/-- `MatrixBase::lazyAssign` (lines 100-149 of `OperatorEquals.h`).

* `unroll` is `SizeAtCompileTime * OtherDerived::CoeffReadCost <= EIGEN_UNROLLING_LIMIT`
  on the destination's compile-time size;
* the vector path is taken iff both destination and source are vectors at
  compile time; it asserts `size() == other.size()` (an `ei_assert`, modelled
  as the `DimensionMismatch` error) and then copies by linear index, unrolled
  or looped;
* the matrix path asserts `rows() == other.rows() && cols() == other.cols()`
  and copies by `(row, col)`, unrolled or looped; the looped form traverses
  column-major unless the destination's column count is statically known and
  its row count is `Dynamic`, in which case it traverses row-major;
* the `UnrollCount` passed to an unroller is
  `unroll ? SizeAtCompileTime : Dynamic`, and the matrix unroller receives the
  destination's `RowsAtCompileTime` (read as `0` in the impossible case where
  the size is known but the row count is not);
* the destination (updated in place in C++, returned by reference) is the
  `Except.ok` payload. -/
def lazyAssign {α : Type} (t : StaticTraits) (dst src : Mat α) :
    Except EigenError (Mat α) :=
  let szCT := sizeCT t.dstRows t.dstCols
  let unroll := unrollDecision szCT t.srcCoeffReadCost
  if isVectorCT t.dstRows t.dstCols && isVectorCT t.srcRows t.srcCols then
    if dst.size = src.size then
      if unroll then
        .ok (vecUnroller (if unroll then szCT else none) dst src)
      else
        .ok (vecLoopRun dst src)
    else
      .error .DimensionMismatch
  else
    if dst.rows = src.rows ∧ dst.cols = src.cols then
      if unroll then
        .ok (matUnroller (t.dstRows.getD 0) (if unroll then szCT else none) dst src)
      else
        if t.dstCols = none ∨ t.dstRows ≠ none then
          .ok (colMajorLoop dst src)
        else
          .ok (rowMajorLoop dst src)
    else
      .error .DimensionMismatch

/-! ## The conjugate-gradient solver

Embedding of `unsupported/Eigen/src/IterativeSolvers/ConjugateGradient.h`.
Vectors are lists of rationals; the system matrix enters the low-level
routine only through its action `v ↦ mat * v` (in the class, the action of
`mp_matrix->selfadjointView<UpLo>()`), and a preconditioner only through its
`solve` member, so both are modelled as functions on vectors. -/

/-- A dense vector of exact scalars. -/
abbrev Vec := List ℚ

/-- Coefficient-wise vector subtraction (`a - b`). -/
def vecSub (a b : Vec) : Vec := List.zipWith (· - ·) a b

/-- Coefficient-wise vector addition (`a + b`). -/
def vecAdd (a b : Vec) : Vec := List.zipWith (· + ·) a b

/-- Scalar multiple (`c * v`). -/
def smulV (c : ℚ) (v : Vec) : Vec := v.map (fun x => c * x)

/-- The dot product `a.dot(b)`.  Over real scalars the conjugation of the
C++ `dot` is the identity, and `internal::real` is the identity as well. -/
def dotQ (a b : Vec) : ℚ := (List.zipWith (· * ·) a b).sum

/-- The final error estimate of `conjugate_gradient` (line 80):
`tol_error = sqrt(abs(absNew / absInit))`.  A division by zero is observable
here (the degenerate `absInit = 0` case), so the value is kept symbolic:
`sqrtOf q` stands for the real number `√q` (with `q = |absNew/absInit| ≥ 0`),
while `inf` and `nan` record the IEEE results `sqrt(|x/0|) = +∞` (`x ≠ 0`)
and `sqrt(|0/0|) = NaN`. -/
inductive CGErr where
  | sqrtOf (q : ℚ)
  | inf
  | nan
deriving DecidableEq

/-- `sqrt(abs(a / b))` with IEEE-faithful handling of a zero divisor. -/
def divAbsSqrt (a b : ℚ) : CGErr :=
  if b = 0 then (if a = 0 then .nan else .inf) else .sqrtOf |a / b|

/-- The comparison `error <= tolerance` (used for `m_info` on line 292):
`√q ≤ t` iff `0 ≤ t ∧ q ≤ t²`; any comparison with `+∞` or `NaN` is false
(for `NaN` every ordered comparison is false in IEEE; `+∞ ≤ t` is false for
every finite `t`). -/
def CGErr.leQ : CGErr → ℚ → Bool
  | .sqrtOf q, t => decide (0 ≤ t ∧ q ≤ t * t)
  | .inf, _ => false
  | .nan, _ => false

/-- The loop state of `conjugate_gradient`: the iterate `x`, the residual,
the search direction `p`, the preconditioned residual inner product
`absNew`, and the loop counter `i`. -/
structure CGLoopState where
  x : Vec
  residual : Vec
  p : Vec
  absNew : ℚ
  i : Nat
deriving DecidableEq

/-- One iteration of the `while` loop of `conjugate_gradient`
(lines 64-78): `tmp = mat*p`, `alpha = absNew / p.dot(tmp)`,
`x += alpha*p`, `residual -= alpha*tmp`, `z = precond.solve(residual)`,
`absNew = real(residual.dot(z))`, `beta = absNew/absOld`, `p = z + beta*p`,
`i++`. -/
def cgStep (matA precond : Vec → Vec) (s : CGLoopState) : CGLoopState :=
  let tmp := matA s.p
  let alpha := s.absNew / dotQ s.p tmp
  let x := vecAdd s.x (smulV alpha s.p)
  let residual := vecSub s.residual (smulV alpha tmp)
  let z := precond residual
  let absOld := s.absNew
  let absNew := dotQ residual z
  let beta := absNew / absOld
  let p := vecAdd z (smulV beta s.p)
  { x := x, residual := residual, p := p, absNew := absNew, i := s.i + 1 }

/-- The loop guard of `conjugate_gradient` (line 64), second conjunct:
`absNew > tol*tol*absInit`.  (The first conjunct `i < maxIters` is encoded
by the fuel of `cgIter`.) -/
def cgGuard (tol absInit : ℚ) (s : CGLoopState) : Bool :=
  decide (s.absNew > tol * tol * absInit)

/-- The `while` loop of `conjugate_gradient` (lines 63-78).  The counter
`i` starts at `0` and each iteration increments it, so `i < maxIters` holds
exactly while the remaining fuel (initially `maxIters`) is positive. -/
def cgIter (matA precond : Vec → Vec) (tol absInit : ℚ) :
    Nat → CGLoopState → CGLoopState
  | 0, s => s
  | fuel + 1, s =>
      if cgGuard tol absInit s then
        cgIter matA precond tol absInit fuel (cgStep matA precond s)
      else
        s

/-- The outputs of `conjugate_gradient`: the solution written back into `x`,
the performed iteration count written back into `iters`, and the error
estimate written back into `tol_error`. -/
structure CGOut where
  x : Vec
  iters : Nat
  err : CGErr

/-- `internal::conjugate_gradient` (lines 39-82 of `ConjugateGradient.h`):
`residual = rhs - mat*x`; `p = precond.solve(residual)`;
`absNew = real(residual.dot(p))`; `absInit = absNew`; then the `while` loop,
and finally `tol_error = sqrt(abs(absNew/absInit))` and `iters = i`.
The C++ `int` iteration budget is taken as a `Nat` (a non-positive budget
runs zero iterations, like fuel `0`). -/
def conjugate_gradient (matA precond : Vec → Vec) (rhs x : Vec)
    (maxIters : Nat) (tol : ℚ) : CGOut :=
  let residual := vecSub rhs (matA x)
  let p := precond residual
  let absNew := dotQ residual p
  let absInit := absNew
  let sFin := cgIter matA precond tol absInit maxIters
    { x := x, residual := residual, p := p, absNew := absNew, i := 0 }
  { x := sFin.x, iters := sFin.i, err := divAbsSqrt sFin.absNew absInit }

/-- `ComputationInfo` values produced by the solver (line 292):
`Success` iff the reached error is at most the tolerance, else
`NoConvergence`. -/
inductive ComputationInfo where
  | Success
  | NoConvergence
deriving DecidableEq

/-- The system matrix as the solver sees it: runtime extents plus the action
of `mp_matrix->selfadjointView<UpLo>()` on a vector.  Only `rows()` and this
action are consumed by the solver code under verification. -/
structure MatrixQ where
  rows : Nat
  cols : Nat
  app : Vec → Vec

/-- The state of a `ConjugateGradient` object (lines 295-311 of
`ConjugateGradient.h`).  `mp_matrix` is the non-owning matrix pointer (`none`
models the null pointer the default constructor stores); `m_precond` is the
preconditioner's solve function, `none` before any `compute`;
`m_error`, `m_iterations` and `m_info` are `none` while the corresponding
`mutable` member still holds indeterminate (never-assigned) storage. -/
structure CGSolver where
  mp_matrix : Option MatrixQ
  m_precond : Option (Vec → Vec)
  m_maxIterations : Nat
  m_tolerance : ℚ
  m_error : Option CGErr
  m_iterations : Option Nat
  m_info : Option ComputationInfo
  m_isInitialized : Bool

/-- The default constructor (lines 158-162): stores a null matrix pointer
and runs `init()` (lines 296-301), which sets `m_isInitialized = false`,
`m_maxIterations = 1000` and `m_tolerance = NumTraits<Scalar>::epsilon()`;
the epsilon of the scalar type is taken as the parameter `eps`. -/
def CGSolver.mk0 (eps : ℚ) : CGSolver :=
  { mp_matrix := none
    m_precond := none
    m_maxIterations := 1000
    m_tolerance := eps
    m_error := none
    m_iterations := none
    m_info := none
    m_isInitialized := false }

/-- `ConjugateGradient::compute(A)` (lines 192-198): rebinds `mp_matrix` to
`A`, rebuilds the preconditioner from `A` (`m_preconditioner.compute(A)`,
modelled by the preconditioner factory `pc`), sets `m_isInitialized = true`
and returns the solver (`*this`).  No property of `A` is checked. -/
def CGSolver.compute (pc : MatrixQ → (Vec → Vec)) (s : CGSolver)
    (A : MatrixQ) : CGSolver :=
  { s with mp_matrix := some A, m_precond := some (pc A),
           m_isInitialized := true }

/-- `ConjugateGradient::iterations()` (lines 232-236): asserts
`m_isInitialized` and returns `m_iterations`. -/
def CGSolver.iterations (s : CGSolver) : Except EigenError (Option Nat) :=
  if s.m_isInitialized then .ok s.m_iterations else .error .NotInitialized

/-- `ConjugateGradient::error()` (lines 239-243): asserts `m_isInitialized`
and returns `m_error`. -/
def CGSolver.error (s : CGSolver) : Except EigenError (Option CGErr) :=
  if s.m_isInitialized then .ok s.m_error else .error .NotInitialized

/-- `ConjugateGradient::info()` (lines 275-279): asserts `m_isInitialized`
and returns `m_info`. -/
def CGSolver.info (s : CGSolver) : Except EigenError (Option ComputationInfo) :=
  if s.m_isInitialized then .ok s.m_info else .error .NotInitialized

/-- `ConjugateGradient::rows()` (line 201): `mp_matrix->rows()`.
Dereferencing the null pointer is undefined behaviour in C++; the model
returns `0` there (every theorem below guards this with
`mp_matrix = some A`). -/
def CGSolver.rowsOf (s : CGSolver) : Nat :=
  match s.mp_matrix with
  | some A => A.rows
  | none => 0

/-- The deferred result of `solve(b)`: `internal::solve_retval` (lines
317-329) captures the decomposition (the solver) and the right-hand side. -/
structure SolveRetval where
  dec : CGSolver
  rhs : Vec

/-- The deferred result of `solveWithGuess(b, x0)`:
`internal::conjugate_gradient_solve_retval_with_guess` (lines 331-351)
additionally captures the initial guess. -/
structure SolveRetvalGuess where
  dec : CGSolver
  rhs : Vec
  guess : Vec

/-- `ConjugateGradient::solve(b)` (lines 249-256): asserts
`m_isInitialized`, then asserts `rows() == b.rows()`, then returns the
deferred wrapper capturing the solver and `b`.  The iterative algorithm is
not run here. -/
def CGSolver.solve (s : CGSolver) (b : Vec) :
    Except EigenError SolveRetval :=
  if s.m_isInitialized then
    if s.rowsOf = b.length then .ok { dec := s, rhs := b }
    else .error .DimensionMismatch
  else .error .NotInitialized

/-- `ConjugateGradient::solveWithGuess(b, x0)` (lines 263-272): the same two
assertions as `solve`, then the deferred wrapper capturing the solver, `b`
and the guess `x0`. -/
def CGSolver.solveWithGuess (s : CGSolver) (b x0 : Vec) :
    Except EigenError SolveRetvalGuess :=
  if s.m_isInitialized then
    if s.rowsOf = b.length then .ok { dec := s, rhs := b, guess := x0 }
    else .error .DimensionMismatch
  else .error .NotInitialized

/-- `ConjugateGradient::_solve(b, x)` (lines 282-293): seeds
`m_iterations = m_maxIterations` and `m_error = m_tolerance` (both passed
in/out to `conjugate_gradient`), runs `conjugate_gradient` on
`mp_matrix->selfadjointView<UpLo>()`, `b`, `x` and `m_preconditioner`, then
sets `m_isInitialized = true` and
`m_info = m_error <= m_tolerance ? Success : NoConvergence`.  Returns the
updated solver state together with the solution written into `x`.
Reaching `_solve` with a null matrix pointer or a never-computed
preconditioner is impossible through `solve`/`solveWithGuess` (both assert
`m_isInitialized`); in that unreachable case the model leaves the state and
destination unchanged. -/
def CGSolver._solve (s : CGSolver) (b x : Vec) : CGSolver × Vec :=
  match s.mp_matrix, s.m_precond with
  | some A, some P =>
      let out := conjugate_gradient A.app P b x s.m_maxIterations s.m_tolerance
      ({ s with
          m_iterations := some out.iters
          m_error := some out.err
          m_isInitialized := true
          m_info := some (if out.err.leQ s.m_tolerance then .Success
                          else .NoConvergence) },
        out.x)
  | _, _ => (s, x)

/-- `solve_retval::evalTo(dst)` (lines 324-328): `dst.setZero()` — every
coefficient of the destination becomes `0`, its length unchanged — then
`dec()._solve(rhs(), dst)`. -/
def SolveRetval.evalTo (w : SolveRetval) (dst : Vec) : CGSolver × Vec :=
  w.dec._solve w.rhs (dst.map (fun _ => (0 : ℚ)))

/-- `conjugate_gradient_solve_retval_with_guess::evalTo(dst)` (lines
343-347): `dst = m_guess` then `dec()._solve(rhs(), dst)` in place. -/
def SolveRetvalGuess.evalTo (w : SolveRetvalGuess) (_dst : Vec) :
    CGSolver × Vec :=
  w.dec._solve w.rhs w.guess

/-! ## Basic lemmas about coefficient writes -/

theorem matSet_entry {α : Type} (m : Mat α) (i j : Nat) (v : α) (r c : Nat) :
    (matSet m i j v).entry r c = if r = i ∧ c = j then v else m.entry r c := rfl

theorem matSet_rows {α : Type} (m : Mat α) (i j : Nat) (v : α) :
    (matSet m i j v).rows = m.rows := rfl

theorem matSet_cols {α : Type} (m : Mat α) (i j : Nat) (v : α) :
    (matSet m i j v).cols = m.cols := rfl

theorem vecSetLin_rows {α : Type} (m : Mat α) (k : Nat) (v : α) :
    (vecSetLin m k v).rows = m.rows := by
  unfold vecSetLin
  split <;> rfl

theorem vecSetLin_cols {α : Type} (m : Mat α) (k : Nat) (v : α) :
    (vecSetLin m k v).cols = m.cols := by
  unfold vecSetLin
  split <;> rfl

theorem vecGetLin_setLin_self {α : Type} (m : Mat α) (k : Nat) (v : α) :
    vecGetLin (vecSetLin m k v) k = v := by
  unfold vecGetLin vecSetLin
  by_cases h : m.rows = 1 <;> simp [h, matSet]

theorem vecGetLin_setLin_ne {α : Type} (m : Mat α) (k : Nat) (v : α)
    (k' : Nat) (hk : k' ≠ k) :
    vecGetLin (vecSetLin m k v) k' = vecGetLin m k' := by
  unfold vecGetLin vecSetLin
  by_cases h : m.rows = 1 <;> simp [h, matSet, hk]

/-- Any fold whose step preserves the row count preserves the row count. -/
theorem foldl_rows_inv {α β : Type} (f : Mat α → β → Mat α)
    (hf : ∀ d b, (f d b).rows = d.rows) :
    ∀ (l : List β) (d : Mat α), (l.foldl f d).rows = d.rows := by
  intro l
  induction l with
  | nil => intro d; rfl
  | cons a l ih => intro d; rw [List.foldl_cons, ih, hf]

/-- Any fold whose step preserves the column count preserves the column
count. -/
theorem foldl_cols_inv {α β : Type} (f : Mat α → β → Mat α)
    (hf : ∀ d b, (f d b).cols = d.cols) :
    ∀ (l : List β) (d : Mat α), (l.foldl f d).cols = d.cols := by
  intro l
  induction l with
  | nil => intro d; rfl
  | cons a l ih => intro d; rw [List.foldl_cons, ih, hf]

/-! ## Characterization of the vector assignment paths -/

/-- What the looped vector body writes: after `n` linear writes, coefficient
`k` holds the source value iff `k < n`. -/
theorem vecWriteFold_get {α : Type} (src : Mat α) :
    ∀ (n : Nat) (dst : Mat α) (k : Nat),
      vecGetLin
        ((List.range n).foldl (fun d i => vecSetLin d i (vecGetLin src i)) dst) k
        = if k < n then vecGetLin src k else vecGetLin dst k := by
  intro n
  induction n with
  | zero => intro dst k; simp
  | succ n ih =>
      intro dst k
      rw [List.range_succ, List.foldl_append, List.foldl_cons, List.foldl_nil]
      by_cases hk : k = n
      · subst hk
        rw [vecGetLin_setLin_self]
        simp
      · rw [vecGetLin_setLin_ne _ _ _ _ hk, ih]
        by_cases h2 : k < n
        · have h3 : k < n + 1 := by omega
          simp [h2, h3]
        · have h3 : ¬ k < n + 1 := by omega
          simp [h2, h3]

/-- The vector unroller writes exactly the same coefficients. -/
theorem vecUnroller_get {α : Type} (src : Mat α) :
    ∀ (n : Nat) (dst : Mat α) (k : Nat),
      vecGetLin (vecUnroller (some n) dst src) k
        = if k < n then vecGetLin src k else vecGetLin dst k := by
  intro n
  induction n with
  | zero => intro dst k; simp [vecUnroller, vecUnrollerN]
  | succ n ih =>
      intro dst k
      show vecGetLin (vecSetLin (vecUnrollerN n dst src) n (vecGetLin src n)) k = _
      by_cases hk : k = n
      · subst hk
        rw [vecGetLin_setLin_self]
        simp
      · rw [vecGetLin_setLin_ne _ _ _ _ hk]
        rw [show vecUnrollerN n dst src = vecUnroller (some n) dst src from rfl, ih]
        by_cases h2 : k < n
        · have h3 : k < n + 1 := by omega
          simp [h2, h3]
        · have h3 : ¬ k < n + 1 := by omega
          simp [h2, h3]

theorem vecUnroller_rows {α : Type} (src : Mat α) (n : Nat) (dst : Mat α) :
    (vecUnroller (some n) dst src).rows = dst.rows := by
  induction n with
  | zero => rfl
  | succ n ih =>
      show (vecSetLin (vecUnrollerN n dst src) n (vecGetLin src n)).rows = dst.rows
      rw [vecSetLin_rows]
      exact ih

theorem vecUnroller_cols {α : Type} (src : Mat α) (n : Nat) (dst : Mat α) :
    (vecUnroller (some n) dst src).cols = dst.cols := by
  induction n with
  | zero => rfl
  | succ n ih =>
      show (vecSetLin (vecUnrollerN n dst src) n (vecGetLin src n)).cols = dst.cols
      rw [vecSetLin_cols]
      exact ih

theorem vecLoopRun_get {α : Type} (dst src : Mat α) (k : Nat) :
    vecGetLin (vecLoopRun dst src) k
      = if k < dst.size then vecGetLin src k else vecGetLin dst k :=
  vecWriteFold_get src dst.size dst k

theorem vecLoopRun_rows {α : Type} (dst src : Mat α) :
    (vecLoopRun dst src).rows = dst.rows :=
  foldl_rows_inv _ (fun d i => vecSetLin_rows d i _) _ dst

theorem vecLoopRun_cols {α : Type} (dst src : Mat α) :
    (vecLoopRun dst src).cols = dst.cols :=
  foldl_cols_inv _ (fun d i => vecSetLin_cols d i _) _ dst

/-! ## Characterization of the matrix assignment paths -/

/-- The matrix unroller for `n` steps writes exactly the cells whose
column-major linear index `j * R + i` is below `n` (for a positive static
row count `R`). -/
theorem matUnrollerN_entry {α : Type} (src : Mat α) (R : Nat) (hR : 0 < R) :
    ∀ (n : Nat) (dst : Mat α) (i j : Nat),
      (matUnrollerN R n dst src).entry i j
        = if i < R ∧ j * R + i < n then src.entry i j else dst.entry i j := by
  intro n
  induction n with
  | zero =>
      intro dst i j
      simp [matUnrollerN]
  | succ n ih =>
      intro dst i j
      show (matSet (matUnrollerN R n dst src) (n % R) (n / R)
        (src.entry (n % R) (n / R))).entry i j = _
      rw [matSet_entry]
      by_cases hij : i = n % R ∧ j = n / R
      · obtain ⟨hi, hj⟩ := hij
        subst hi
        subst hj
        have h1 : n % R < R := Nat.mod_lt _ hR
        have h2 : (n / R) * R + n % R = n := by
          rw [Nat.mul_comm]
          exact Nat.div_add_mod n R
        have h3 : (n / R) * R + n % R < n + 1 := by omega
        simp [h1, h3]
      · rw [if_neg hij, ih]
        by_cases hc : i < R ∧ j * R + i < n
        · have h3 : i < R ∧ j * R + i < n + 1 := ⟨hc.1, by omega⟩
          simp [hc, h3]
        · have h3 : ¬ (i < R ∧ j * R + i < n + 1) := by
            rintro ⟨h1, h2⟩
            rcases Nat.lt_or_ge (j * R + i) n with h | h
            · exact hc ⟨h1, h⟩
            · have heq : j * R + i = n := by omega
              apply hij
              constructor
              · rw [← heq, Nat.add_comm, Nat.add_mul_mod_self_right,
                  Nat.mod_eq_of_lt h1]
              · rw [← heq, Nat.add_comm, Nat.add_mul_div_right _ _ hR,
                  Nat.div_eq_of_lt h1, Nat.zero_add]
          simp [hc, h3]

theorem matUnrollerN_rows {α : Type} (src : Mat α) (R n : Nat) (dst : Mat α) :
    (matUnrollerN R n dst src).rows = dst.rows := by
  induction n with
  | zero => rfl
  | succ n ih =>
      show (matSet (matUnrollerN R n dst src) _ _ _).rows = dst.rows
      rw [matSet_rows]
      exact ih

theorem matUnrollerN_cols {α : Type} (src : Mat α) (R n : Nat) (dst : Mat α) :
    (matUnrollerN R n dst src).cols = dst.cols := by
  induction n with
  | zero => rfl
  | succ n ih =>
      show (matSet (matUnrollerN R n dst src) _ _ _).cols = dst.cols
      rw [matSet_cols]
      exact ih

theorem writeCol_succ {α : Type} (src : Mat α) (R j : Nat) (d : Mat α) :
    writeCol src (R + 1) j d
      = matSet (writeCol src R j d) R j (src.entry R j) := by
  unfold writeCol
  rw [List.range_succ, List.foldl_append, List.foldl_cons, List.foldl_nil]

/-- One inner column pass writes exactly column `j`, rows `0..R-1`. -/
theorem writeCol_entry {α : Type} (src : Mat α) (j : Nat) :
    ∀ (R : Nat) (d : Mat α) (r c : Nat),
      (writeCol src R j d).entry r c
        = if r < R ∧ c = j then src.entry r c else d.entry r c := by
  intro R
  induction R with
  | zero =>
      intro d r c
      simp [writeCol]
  | succ R ih =>
      intro d r c
      rw [writeCol_succ, matSet_entry]
      by_cases hij : r = R ∧ c = j
      · obtain ⟨h1, h2⟩ := hij
        subst h1
        subst h2
        simp
      · rw [if_neg hij, ih]
        by_cases hc : r < R ∧ c = j
        · have h3 : r < R + 1 ∧ c = j := ⟨by omega, hc.2⟩
          simp [hc, h3]
        · have h3 : ¬ (r < R + 1 ∧ c = j) := by
            rintro ⟨h1, h2⟩
            rcases Nat.lt_or_ge r R with h | h
            · exact hc ⟨h, h2⟩
            · exact hij ⟨by omega, h2⟩
          simp [hc, h3]

theorem writeCol_rows {α : Type} (src : Mat α) (R j : Nat) (d : Mat α) :
    (writeCol src R j d).rows = d.rows :=
  foldl_rows_inv _ (fun d2 i => matSet_rows d2 i j _) _ d

theorem writeCol_cols {α : Type} (src : Mat α) (R j : Nat) (d : Mat α) :
    (writeCol src R j d).cols = d.cols :=
  foldl_cols_inv _ (fun d2 i => matSet_cols d2 i j _) _ d

theorem writeRow_succ {α : Type} (src : Mat α) (C i : Nat) (d : Mat α) :
    writeRow src (C + 1) i d
      = matSet (writeRow src C i d) i C (src.entry i C) := by
  unfold writeRow
  rw [List.range_succ, List.foldl_append, List.foldl_cons, List.foldl_nil]

/-- One inner row pass writes exactly row `i`, columns `0..C-1`. -/
theorem writeRow_entry {α : Type} (src : Mat α) (i : Nat) :
    ∀ (C : Nat) (d : Mat α) (r c : Nat),
      (writeRow src C i d).entry r c
        = if r = i ∧ c < C then src.entry r c else d.entry r c := by
  intro C
  induction C with
  | zero =>
      intro d r c
      simp [writeRow]
  | succ C ih =>
      intro d r c
      rw [writeRow_succ, matSet_entry]
      by_cases hij : r = i ∧ c = C
      · obtain ⟨h1, h2⟩ := hij
        subst h1
        subst h2
        simp
      · rw [if_neg hij, ih]
        by_cases hc : r = i ∧ c < C
        · have h3 : r = i ∧ c < C + 1 := ⟨hc.1, by omega⟩
          simp [hc, h3]
        · have h3 : ¬ (r = i ∧ c < C + 1) := by
            rintro ⟨h1, h2⟩
            rcases Nat.lt_or_ge c C with h | h
            · exact hc ⟨h1, h⟩
            · exact hij ⟨h1, by omega⟩
          simp [hc, h3]

theorem writeRow_rows {α : Type} (src : Mat α) (C i : Nat) (d : Mat α) :
    (writeRow src C i d).rows = d.rows :=
  foldl_rows_inv _ (fun d2 j => matSet_rows d2 i j _) _ d

theorem writeRow_cols {α : Type} (src : Mat α) (C i : Nat) (d : Mat α) :
    (writeRow src C i d).cols = d.cols :=
  foldl_cols_inv _ (fun d2 j => matSet_cols d2 i j _) _ d

/-- The column-major double loop with `C` outer passes over a fixed inner
bound `R` writes exactly the block `[0, R) × [0, C)`. -/
theorem colFold_entry {α : Type} (src : Mat α) (R : Nat) :
    ∀ (C : Nat) (d : Mat α) (r c : Nat),
      (((List.range C).foldl (fun d2 j => writeCol src R j d2) d)).entry r c
        = if r < R ∧ c < C then src.entry r c else d.entry r c := by
  intro C
  induction C with
  | zero =>
      intro d r c
      simp
  | succ C ih =>
      intro d r c
      rw [List.range_succ, List.foldl_append, List.foldl_cons, List.foldl_nil,
        writeCol_entry, ih]
      by_cases h1 : r < R ∧ c = C
      · have h3 : r < R ∧ c < C + 1 := ⟨h1.1, by omega⟩
        simp [h1, h3]
      · rw [if_neg h1]
        by_cases hc : r < R ∧ c < C
        · have h3 : r < R ∧ c < C + 1 := ⟨hc.1, by omega⟩
          simp [hc, h3]
        · have h3 : ¬ (r < R ∧ c < C + 1) := by
            rintro ⟨h2, h4⟩
            rcases Nat.lt_or_ge c C with h | h
            · exact hc ⟨h2, h⟩
            · exact h1 ⟨h2, by omega⟩
          simp [hc, h3]

/-- The row-major double loop with `Rw` outer passes over a fixed inner
bound `C` writes exactly the block `[0, Rw) × [0, C)`. -/
theorem rowFold_entry {α : Type} (src : Mat α) (C : Nat) :
    ∀ (Rw : Nat) (d : Mat α) (r c : Nat),
      (((List.range Rw).foldl (fun d2 i => writeRow src C i d2) d)).entry r c
        = if r < Rw ∧ c < C then src.entry r c else d.entry r c := by
  intro Rw
  induction Rw with
  | zero =>
      intro d r c
      simp
  | succ Rw ih =>
      intro d r c
      rw [List.range_succ, List.foldl_append, List.foldl_cons, List.foldl_nil,
        writeRow_entry, ih]
      by_cases h1 : r = Rw ∧ c < C
      · have h3 : r < Rw + 1 ∧ c < C := ⟨by omega, h1.2⟩
        simp [h1, h3]
      · rw [if_neg h1]
        by_cases hc : r < Rw ∧ c < C
        · have h3 : r < Rw + 1 ∧ c < C := ⟨by omega, hc.2⟩
          simp [hc, h3]
        · have h3 : ¬ (r < Rw + 1 ∧ c < C) := by
            rintro ⟨h2, h4⟩
            rcases Nat.lt_or_ge r Rw with h | h
            · exact hc ⟨h, h4⟩
            · exact h1 ⟨by omega, h4⟩
          simp [hc, h3]

/-- Final coefficients of the column-major looped matrix path. -/
theorem colMajorLoop_entry {α : Type} (dst src : Mat α) (r c : Nat) :
    (colMajorLoop dst src).entry r c
      = if r < dst.rows ∧ c < dst.cols then src.entry r c else dst.entry r c :=
  colFold_entry src dst.rows dst.cols dst r c

/-- Final coefficients of the row-major looped matrix path. -/
theorem rowMajorLoop_entry {α : Type} (dst src : Mat α) (r c : Nat) :
    (rowMajorLoop dst src).entry r c
      = if r < dst.rows ∧ c < dst.cols then src.entry r c else dst.entry r c :=
  rowFold_entry src dst.cols dst.rows dst r c

theorem colMajorLoop_rows {α : Type} (dst src : Mat α) :
    (colMajorLoop dst src).rows = dst.rows :=
  foldl_rows_inv _ (fun d j => writeCol_rows src dst.rows j d) _ dst

theorem colMajorLoop_cols {α : Type} (dst src : Mat α) :
    (colMajorLoop dst src).cols = dst.cols :=
  foldl_cols_inv _ (fun d j => writeCol_cols src dst.rows j d) _ dst

theorem rowMajorLoop_rows {α : Type} (dst src : Mat α) :
    (rowMajorLoop dst src).rows = dst.rows :=
  foldl_rows_inv _ (fun d i => writeRow_rows src dst.cols i d) _ dst

theorem rowMajorLoop_cols {α : Type} (dst src : Mat α) :
    (rowMajorLoop dst src).cols = dst.cols :=
  foldl_cols_inv _ (fun d i => writeRow_cols src dst.cols i d) _ dst

/-! ## Lemmas about the conjugate-gradient loop -/

theorem cgStep_i (matA precond : Vec → Vec) (s : CGLoopState) :
    (cgStep matA precond s).i = s.i + 1 := rfl

theorem cgStep_iterate_i (matA precond : Vec → Vec) :
    ∀ (k : Nat) (s : CGLoopState),
      ((cgStep matA precond)^[k] s).i = s.i + k := by
  intro k
  induction k with
  | zero => intro s; rfl
  | succ k ih =>
      intro s
      rw [Function.iterate_succ_apply, ih, cgStep_i]
      omega

/-- After every loop iteration, `absNew` is the preconditioned residual
inner product `real(residual.dot(z))` with `z = precond.solve(residual)`
for the updated residual. -/
theorem cgStep_absNew (matA precond : Vec → Vec) (s : CGLoopState) :
    (cgStep matA precond s).absNew
      = dotQ (cgStep matA precond s).residual
          (precond (cgStep matA precond s).residual) := rfl

/-- The `while` loop runs some number `k ≤ fuel` of `cgStep` iterations; the
guard held before each performed iteration, and on exit either the
iteration budget is exhausted or the guard fails. -/
theorem cgIter_spec (matA precond : Vec → Vec) (tol absInit : ℚ) :
    ∀ (fuel : Nat) (s : CGLoopState),
      ∃ k, k ≤ fuel ∧
        cgIter matA precond tol absInit fuel s = (cgStep matA precond)^[k] s ∧
        (∀ j, j < k → cgGuard tol absInit ((cgStep matA precond)^[j] s) = true) ∧
        (k = fuel ∨ cgGuard tol absInit ((cgStep matA precond)^[k] s) = false) := by
  intro fuel
  induction fuel with
  | zero =>
      intro s
      exact ⟨0, Nat.le_refl 0, rfl,
        fun j hj => absurd hj (Nat.not_lt_zero j), Or.inl rfl⟩
  | succ fuel ih =>
      intro s
      by_cases hg : cgGuard tol absInit s = true
      · obtain ⟨k, hk, heq, hall, hexit⟩ := ih (cgStep matA precond s)
        refine ⟨k + 1, by omega, ?_, ?_, ?_⟩
        · show (if cgGuard tol absInit s then
              cgIter matA precond tol absInit fuel (cgStep matA precond s)
            else s) = (cgStep matA precond)^[k + 1] s
          rw [if_pos hg, heq, Function.iterate_succ_apply]
        · intro j hj
          cases j with
          | zero => simpa using hg
          | succ j =>
              rw [Function.iterate_succ_apply]
              exact hall j (by omega)
        · rcases hexit with h | h
          · exact Or.inl (by omega)
          · right
            rw [Function.iterate_succ_apply]
            exact h
      · rw [Bool.not_eq_true] at hg
        refine ⟨0, Nat.zero_le _, ?_,
          fun j hj => absurd hj (Nat.not_lt_zero j), Or.inr hg⟩
        show (if cgGuard tol absInit s then
            cgIter matA precond tol absInit fuel (cgStep matA precond s)
          else s) = (cgStep matA precond)^[0] s
        rw [hg]
        simp

/-- If the guard fails at entry the loop body never runs. -/
theorem cgIter_guard_false (matA precond : Vec → Vec) (tol absInit : ℚ)
    (fuel : Nat) (s : CGLoopState)
    (hg : cgGuard tol absInit s = false) :
    cgIter matA precond tol absInit fuel s = s := by
  cases fuel with
  | zero => rfl
  | succ fuel =>
      show (if cgGuard tol absInit s then
          cgIter matA precond tol absInit fuel (cgStep matA precond s)
        else s) = s
      rw [hg]
      simp

/-- The dot product of `v - v` (an exactly zero residual) with anything
vanishes. -/
theorem dotQ_sub_self_left : ∀ (v p : Vec), dotQ (vecSub v v) p = 0 := by
  intro v
  induction v with
  | nil => intro p; rfl
  | cons a v ih =>
      intro p
      cases p with
      | nil => rfl
      | cons c p =>
          show dotQ ((a - a) :: vecSub v v) (c :: p) = 0
          show (a - a) * c + dotQ (vecSub v v) p = 0
          rw [ih p, sub_self, zero_mul, add_zero]

/-! ## Concrete instances used to instantiate theorems with hypotheses -/

/-- A concrete 2 × 2 destination. -/
def dstN : Mat Nat := { rows := 2, cols := 2, entry := fun _ _ => 0 }

/-- A concrete 2 × 2 source with pairwise distinct coefficients. -/
def srcN : Mat Nat := { rows := 2, cols := 2, entry := fun i j => i * 2 + j + 1 }

/-- Static traits of a fixed-size 2 × 2 destination/source pair with unit
coefficient read cost. -/
def t22 : StaticTraits :=
  { dstRows := some 2, dstCols := some 2, srcRows := some 2, srcCols := some 2,
    srcCoeffReadCost := 1 }

/-- Static traits of a fully dynamic destination/source pair. -/
def tDyn : StaticTraits :=
  { dstRows := none, dstCols := none, srcRows := none, srcCols := none,
    srcCoeffReadCost := 1 }

/-- A concrete 2 × 3 destination (its shape differs from `srcN`). -/
def dst23 : Mat Nat := { rows := 2, cols := 3, entry := fun _ _ => 0 }

/-- Static traits of a fixed-size 2 × 3 destination with a fixed-size 2 × 2
source. -/
def t23 : StaticTraits :=
  { dstRows := some 2, dstCols := some 3, srcRows := some 2, srcCols := some 2,
    srcCoeffReadCost := 1 }

/-! ## Claim C9 -/

/-- Claim C9: for every expression, `size() = rows() * cols()` and
`isVector() = (rows() == 1 || cols() == 1)`; at compile time,
`SizeAtCompileTime` is the product of the two static extents unless either
is the `Dynamic` sentinel, in which case it is the sentinel as well. -/
theorem c9_shape_invariants :
    (∀ (α : Type) (m : Mat α),
        Mat.size m = m.rows * m.cols
          ∧ Mat.isVector m = (m.rows == 1 || m.cols == 1))
    ∧ (∀ a b : Nat, sizeCT (some a) (some b) = some (a * b))
    ∧ (∀ c : CSize, sizeCT none c = none)
    ∧ (∀ r : CSize, sizeCT r none = none) := by
  refine ⟨fun α m => ⟨rfl, rfl⟩, fun a b => rfl, fun c => rfl, fun r => ?_⟩
  cases r <;> rfl

/-! ## Claim C8 -/

/-- Claim C8: the unrolled path is selected iff the compile-time size is
known and `Size * CoeffReadCost` is at most `EIGEN_UNROLLING_LIMIT`; the
unrollers decrease their count by one per step; count `0` and the `Dynamic`
sentinel are no-ops (an unknown size never recurses); and on the matrix
path with matching shapes and a positive unroll decision, `lazyAssign`
invokes the matrix unroller with the destination's compile-time size. -/
theorem c8_unroll_budget :
    (∀ (sz : CSize) (cost : Nat),
        unrollDecision sz cost = true
          ↔ ∃ n, sz = some n ∧ n * cost ≤ EIGEN_UNROLLING_LIMIT)
    ∧ (∀ (α : Type) (R : Nat) (d s : Mat α),
        matUnroller R none d s = d ∧ vecUnroller none d s = d
          ∧ matUnroller R (some 0) d s = d ∧ vecUnroller (some 0) d s = d)
    ∧ (∀ (α : Type) (R n : Nat) (d s : Mat α),
        matUnroller R (some (n + 1)) d s
          = matSet (matUnroller R (some n) d s) (n % R) (n / R)
              (s.entry (n % R) (n / R)))
    ∧ (∀ (α : Type) (n : Nat) (d s : Mat α),
        vecUnroller (some (n + 1)) d s
          = vecSetLin (vecUnroller (some n) d s) n (vecGetLin s n))
    ∧ (∀ (α : Type) (t : StaticTraits) (dst src : Mat α),
        (isVectorCT t.dstRows t.dstCols && isVectorCT t.srcRows t.srcCols) = false →
        dst.rows = src.rows → dst.cols = src.cols →
        unrollDecision (sizeCT t.dstRows t.dstCols) t.srcCoeffReadCost = true →
        lazyAssign t dst src
          = .ok (matUnroller (t.dstRows.getD 0)
              (sizeCT t.dstRows t.dstCols) dst src)) := by
  refine ⟨?_, fun α R d s => ⟨rfl, rfl, rfl, rfl⟩, fun α R n d s => rfl,
    fun α n d s => rfl, ?_⟩
  · intro sz cost
    cases sz with
    | none => simp [unrollDecision]
    | some n => simp [unrollDecision]
  · intro α t dst src hvec hr hc hu
    unfold lazyAssign
    simp only [hvec, hu, hr, hc]
    simp

/-- Witness for claim C8: the path-selection conjunct at a concrete
fixed-size 2 × 2 assignment (the hypotheses hold definitionally). -/
theorem c8_unroll_budget_witness :
    lazyAssign t22 dstN srcN
      = .ok (matUnroller (t22.dstRows.getD 0)
          (sizeCT t22.dstRows t22.dstCols) dstN srcN) :=
  c8_unroll_budget.2.2.2.2 Nat t22 dstN srcN rfl rfl rfl rfl

/-! ## Claim C7 -/

/-- Claim C7: on the looped matrix path the traversal is column-major unless
the destination's column count is statically fixed and its row count is not
(then row-major); and the two traversal orders write identical final
contents, every coefficient being visited exactly once. -/
theorem c7_traversal_order :
    (∀ (α : Type) (t : StaticTraits) (dst src : Mat α),
        (isVectorCT t.dstRows t.dstCols && isVectorCT t.srcRows t.srcCols) = false →
        dst.rows = src.rows → dst.cols = src.cols →
        unrollDecision (sizeCT t.dstRows t.dstCols) t.srcCoeffReadCost = false →
        lazyAssign t dst src
          = .ok (if t.dstCols = none ∨ t.dstRows ≠ none then colMajorLoop dst src
                 else rowMajorLoop dst src))
    ∧ (∀ (α : Type) (dst src : Mat α) (r c : Nat),
        (colMajorLoop dst src).entry r c = (rowMajorLoop dst src).entry r c)
    ∧ (∀ (α : Type) (dst src : Mat α),
        (colMajorLoop dst src).rows = (rowMajorLoop dst src).rows
          ∧ (colMajorLoop dst src).cols = (rowMajorLoop dst src).cols) := by
  refine ⟨?_, ?_, ?_⟩
  · intro α t dst src hvec hr hc hu
    unfold lazyAssign
    simp only [hvec, hu, hr, hc]
    by_cases hsel : t.dstCols = none ∨ t.dstRows ≠ none
    · simp [hsel]
    · simp [hsel]
  · intro α dst src r c
    rw [colMajorLoop_entry, rowMajorLoop_entry]
  · intro α dst src
    rw [colMajorLoop_rows, rowMajorLoop_rows, colMajorLoop_cols,
      rowMajorLoop_cols]
    exact ⟨rfl, rfl⟩

/-- Witness for claim C7: the traversal-selection conjunct at a fully
dynamic 2 × 2 assignment, which selects the column-major loop. -/
theorem c7_traversal_order_witness :
    lazyAssign tDyn dstN srcN
      = .ok (if tDyn.dstCols = none ∨ tDyn.dstRows ≠ none
             then colMajorLoop dstN srcN else rowMajorLoop dstN srcN) :=
  c7_traversal_order.1 Nat tDyn dstN srcN rfl rfl rfl rfl

/-! ## Claim C6 -/

/-- For `r < R`, the column-major linear index `c * R + r` is below `R * C`
exactly when `c < C`. -/
theorem linIndex_lt_iff (R C r c : Nat) (hr : r < R) :
    c * R + r < R * C ↔ c < C := by
  constructor
  · intro h
    by_contra hc
    push_neg at hc
    have h1 : C * R ≤ c * R := Nat.mul_le_mul_right R hc
    have h2 : R * C ≤ c * R + r := by
      rw [Nat.mul_comm]
      exact le_trans h1 (Nat.le_add_right _ _)
    exact Nat.lt_irrefl _ (lt_of_lt_of_le h h2)
  · intro h
    have h1 : c * R + r < c * R + R := Nat.add_lt_add_left hr (c * R)
    have h2 : c * R + R = (c + 1) * R := (Nat.succ_mul c R).symm
    have h3 : (c + 1) * R ≤ C * R := Nat.mul_le_mul_right R h
    calc c * R + r < c * R + R := h1
      _ = (c + 1) * R := h2
      _ ≤ C * R := h3
      _ = R * C := Nat.mul_comm C R

/-- Claim C6: for every static size, assigning through the unrolled path and
through the explicit loop path yields identical destination contents, on the
vector path and on the matrix path. -/
theorem c6_unrolled_loop_equiv :
    (∀ (α : Type) (dst src : Mat α) (k : Nat),
        vecGetLin (vecUnroller (some dst.size) dst src) k
          = vecGetLin (vecLoopRun dst src) k)
    ∧ (∀ (α : Type) (R C : Nat) (dst src : Mat α),
        0 < R → dst.rows = R → dst.cols = C →
        ∀ r c : Nat,
          (matUnroller R (some (R * C)) dst src).entry r c
            = (colMajorLoop dst src).entry r c) := by
  constructor
  · intro α dst src k
    rw [vecUnroller_get, vecLoopRun_get]
  · intro α R C dst src hR hrows hcols r c
    show (matUnrollerN R (R * C) dst src).entry r c = _
    rw [matUnrollerN_entry src R hR, colMajorLoop_entry, hrows, hcols]
    by_cases hr : r < R
    · have hiff := linIndex_lt_iff R C r c hr
      by_cases hc : c < C
      · have h1 : r < R ∧ c * R + r < R * C := ⟨hr, hiff.mpr hc⟩
        have h2 : r < R ∧ c < C := ⟨hr, hc⟩
        simp [h1, h2]
      · have h1 : ¬ (r < R ∧ c * R + r < R * C) := fun h => hc (hiff.mp h.2)
        have h2 : ¬ (r < R ∧ c < C) := fun h => hc h.2
        simp [h1, h2]
    · simp [hr]

/-- Witness for claim C6: the matrix conjunct at a fixed 2 × 2 size and one
concrete coefficient. -/
theorem c6_unrolled_loop_equiv_witness :
    (matUnroller 2 (some (2 * 2)) dstN srcN).entry 0 1
      = (colMajorLoop dstN srcN).entry 0 1 :=
  c6_unrolled_loop_equiv.2 Nat 2 2 dstN srcN (by decide) rfl rfl 0 1

/-! ## Claim C4 -/

/-- On the vector path with matching sizes and a positive unroll decision,
`lazyAssign` returns the unrolled copy with the destination's compile-time
size as unroll count. -/
theorem lazyAssign_vec_unroll_eq {α : Type} (t : StaticTraits) (dst src : Mat α)
    (hvec : (isVectorCT t.dstRows t.dstCols && isVectorCT t.srcRows t.srcCols) = true)
    (hsz : dst.size = src.size)
    (hu : unrollDecision (sizeCT t.dstRows t.dstCols) t.srcCoeffReadCost = true) :
    lazyAssign t dst src
      = .ok (vecUnroller (sizeCT t.dstRows t.dstCols) dst src) := by
  unfold lazyAssign
  simp [hvec, hu, hsz]

/-- On the matrix path with matching shapes and a positive unroll decision,
`lazyAssign` returns the unrolled copy with the destination's compile-time
size as unroll count and its compile-time row count as modulus. -/
theorem lazyAssign_mat_unroll_eq {α : Type} (t : StaticTraits) (dst src : Mat α)
    (hvec : (isVectorCT t.dstRows t.dstCols && isVectorCT t.srcRows t.srcCols) = false)
    (hrows : dst.rows = src.rows) (hcols : dst.cols = src.cols)
    (hu : unrollDecision (sizeCT t.dstRows t.dstCols) t.srcCoeffReadCost = true) :
    lazyAssign t dst src
      = .ok (matUnroller (t.dstRows.getD 0)
          (sizeCT t.dstRows t.dstCols) dst src) := by
  unfold lazyAssign
  simp only [hvec, hu, hrows, hcols]
  simp

/-- Static traits are consistent with the runtime shapes: every statically
known extent equals the corresponding runtime extent.  Every concrete C++
matrix type satisfies this by construction (a fixed-size matrix has that
size at runtime). -/
def traitsMatch {α : Type} (t : StaticTraits) (dst src : Mat α) : Prop :=
  (t.dstRows = none ∨ t.dstRows = some dst.rows)
    ∧ (t.dstCols = none ∨ t.dstCols = some dst.cols)
    ∧ (t.srcRows = none ∨ t.srcRows = some src.rows)
    ∧ (t.srcCols = none ∨ t.srcCols = some src.cols)

/-- Static traits of a fixed-size row vector 1 × 3. -/
def t13v : StaticTraits :=
  { dstRows := some 1, dstCols := some 3, srcRows := some 3, srcCols := some 1,
    srcCoeffReadCost := 1 }

/-- A concrete 1 × 3 destination. -/
def dst13 : Mat Nat := { rows := 1, cols := 3, entry := fun _ _ => 0 }

/-- A concrete 3 × 1 source. -/
def src31 : Mat Nat := { rows := 3, cols := 1, entry := fun i _ => i + 1 }

/-- Counterexample for claim C4: a 1 × 3 destination and a 3 × 1 source do
not have identical shape, yet `lazyAssign` does not fail with
`DimensionMismatch` — the vector path only compares total sizes
(`ei_assert(size() == other.size())`, line 109 of `OperatorEquals.h`), and
`3 = 3` passes. -/
theorem c4_shape_check_counterexample :
    dst13.rows ≠ src31.rows
      ∧ lazyAssign t13v dst13 src31 ≠ Except.error EigenError.DimensionMismatch := by
  constructor
  · decide
  · intro h
    exact Except.noConfusion h

/-- Claim C4 (amended): for static traits consistent with the runtime
shapes, `lazyAssign` checks shape at the level of the chosen path — on the
vector path (both operands statically vectors) it requires only equal total
sizes, on the matrix path it requires equal row and column counts — and
fails with `DimensionMismatch` exactly when that check fails; on success
the destination keeps its shape, every coefficient in range holds the
corresponding source coefficient, every coefficient out of range is
untouched, and the updated destination is the returned value. -/
theorem c4_assign_contract (α : Type) (t : StaticTraits) (dst src : Mat α)
    (hm : traitsMatch t dst src) :
    ((isVectorCT t.dstRows t.dstCols && isVectorCT t.srcRows t.srcCols) = true →
      (dst.size ≠ src.size →
          lazyAssign t dst src = Except.error EigenError.DimensionMismatch)
      ∧ (dst.size = src.size →
          ∃ m, lazyAssign t dst src = Except.ok m
            ∧ m.rows = dst.rows ∧ m.cols = dst.cols
            ∧ (∀ k, k < dst.size → vecGetLin m k = vecGetLin src k)
            ∧ (∀ k, ¬ k < dst.size → vecGetLin m k = vecGetLin dst k)))
    ∧ ((isVectorCT t.dstRows t.dstCols && isVectorCT t.srcRows t.srcCols) = false →
      (¬ (dst.rows = src.rows ∧ dst.cols = src.cols) →
          lazyAssign t dst src = Except.error EigenError.DimensionMismatch)
      ∧ (dst.rows = src.rows → dst.cols = src.cols →
          ∃ m, lazyAssign t dst src = Except.ok m
            ∧ m.rows = dst.rows ∧ m.cols = dst.cols
            ∧ (∀ r c, r < dst.rows → c < dst.cols → m.entry r c = src.entry r c)
            ∧ (∀ r c, ¬ (r < dst.rows ∧ c < dst.cols) →
                m.entry r c = dst.entry r c))) := by
  obtain ⟨hdr, hdc, _, _⟩ := hm
  constructor
  · intro hvec
    constructor
    · intro hsz
      unfold lazyAssign
      simp [hvec, hsz]
    · intro hsz
      by_cases hu : unrollDecision (sizeCT t.dstRows t.dstCols) t.srcCoeffReadCost = true
      · -- unrolled vector path; the static size is known, hence both static
        -- extents are known and agree with the runtime shape
        have hknown : ∃ n, sizeCT t.dstRows t.dstCols = some n := by
          cases hceq : sizeCT t.dstRows t.dstCols with
          | none => rw [hceq] at hu; exact absurd hu (by simp [unrollDecision])
          | some n => exact ⟨n, rfl⟩
        obtain ⟨n, hn⟩ := hknown
        have hdr2 : t.dstRows = some dst.rows := by
          rcases hdr with h | h
          · rw [h] at hn; exact absurd hn (by simp [sizeCT])
          · exact h
        have hdc2 : t.dstCols = some dst.cols := by
          rcases hdc with h | h
          · rw [hdr2, h] at hn; exact absurd hn (by simp [sizeCT])
          · exact h
        have hn2 : sizeCT t.dstRows t.dstCols = some dst.size := by
          rw [hdr2, hdc2]; rfl
        refine ⟨vecUnroller (some dst.size) dst src, ?_, ?_, ?_, ?_, ?_⟩
        · rw [lazyAssign_vec_unroll_eq t dst src hvec hsz hu, hn2]
        · exact vecUnroller_rows src dst.size dst
        · exact vecUnroller_cols src dst.size dst
        · intro k hk
          rw [vecUnroller_get]
          simp [hk]
        · intro k hk
          rw [vecUnroller_get]
          simp [hk]
      · rw [Bool.not_eq_true] at hu
        refine ⟨vecLoopRun dst src, ?_, vecLoopRun_rows dst src,
          vecLoopRun_cols dst src, ?_, ?_⟩
        · unfold lazyAssign
          simp [hvec, hu, hsz]
        · intro k hk
          rw [vecLoopRun_get]
          simp [hk]
        · intro k hk
          rw [vecLoopRun_get]
          simp [hk]
  · intro hvec
    constructor
    · intro hshape
      unfold lazyAssign
      simp [hvec, hshape]
    · intro hrows hcols
      by_cases hu : unrollDecision (sizeCT t.dstRows t.dstCols) t.srcCoeffReadCost = true
      · have hknown : ∃ n, sizeCT t.dstRows t.dstCols = some n := by
          cases hceq : sizeCT t.dstRows t.dstCols with
          | none => rw [hceq] at hu; exact absurd hu (by simp [unrollDecision])
          | some n => exact ⟨n, rfl⟩
        obtain ⟨n, hn⟩ := hknown
        have hdr2 : t.dstRows = some dst.rows := by
          rcases hdr with h | h
          · rw [h] at hn; exact absurd hn (by simp [sizeCT])
          · exact h
        have hdc2 : t.dstCols = some dst.cols := by
          rcases hdc with h | h
          · rw [hdr2, h] at hn; exact absurd hn (by simp [sizeCT])
          · exact h
        have hn2 : sizeCT t.dstRows t.dstCols = some (dst.rows * dst.cols) := by
          rw [hdr2, hdc2]; rfl
        refine ⟨matUnroller dst.rows (some (dst.rows * dst.cols)) dst src,
          ?_, ?_, ?_, ?_, ?_⟩
        · rw [lazyAssign_mat_unroll_eq t dst src hvec hrows hcols hu, hn2, hdr2]
          rfl
        · exact matUnrollerN_rows src dst.rows _ dst
        · exact matUnrollerN_cols src dst.rows _ dst
        · intro r c hrlt hclt
          rcases Nat.eq_zero_or_pos dst.rows with h0 | hpos
          · omega
          · show (matUnrollerN dst.rows (dst.rows * dst.cols) dst src).entry r c = _
            rw [matUnrollerN_entry src dst.rows hpos]
            have hlt : c * dst.rows + r < dst.rows * dst.cols :=
              (linIndex_lt_iff dst.rows dst.cols r c hrlt).mpr hclt
            simp [hrlt, hlt]
        · intro r c hout
          rcases Nat.eq_zero_or_pos dst.rows with h0 | hpos
          · show (matUnrollerN dst.rows (dst.rows * dst.cols) dst src).entry r c = _
            rw [h0, Nat.zero_mul]
            rfl
          · show (matUnrollerN dst.rows (dst.rows * dst.cols) dst src).entry r c = _
            rw [matUnrollerN_entry src dst.rows hpos]
            have hnot : ¬ (r < dst.rows ∧ c * dst.rows + r < dst.rows * dst.cols) := by
              rintro ⟨h1, h2⟩
              exact hout ⟨h1, (linIndex_lt_iff dst.rows dst.cols r c h1).mp h2⟩
            simp [hnot]
      · rw [Bool.not_eq_true] at hu
        by_cases hsel : t.dstCols = none ∨ t.dstRows ≠ none
        · refine ⟨colMajorLoop dst src, ?_, colMajorLoop_rows dst src,
            colMajorLoop_cols dst src, ?_, ?_⟩
          · unfold lazyAssign
            simp [hvec, hu, hrows, hcols, hsel]
          · intro r c h1 h2
            rw [colMajorLoop_entry]
            simp [h1, h2]
          · intro r c hout
            rw [colMajorLoop_entry]
            simp [hout]
        · refine ⟨rowMajorLoop dst src, ?_, rowMajorLoop_rows dst src,
            rowMajorLoop_cols dst src, ?_, ?_⟩
          · unfold lazyAssign
            simp [hvec, hu, hrows, hcols, hsel]
          · intro r c h1 h2
            rw [rowMajorLoop_entry]
            simp [h1, h2]
          · intro r c hout
            rw [rowMajorLoop_entry]
            simp [hout]

/-- Witness for claim C4 (amended): the matrix-path shape check fails with
`DimensionMismatch` on a concrete 2 × 3 destination with a 2 × 2 source. -/
theorem c4_assign_contract_witness :
    lazyAssign t23 dst23 srcN = Except.error EigenError.DimensionMismatch :=
  ((c4_assign_contract Nat t23 dst23 srcN
      ⟨Or.inr rfl, Or.inr rfl, Or.inr rfl, Or.inr rfl⟩).2 rfl).1 (by decide)

/-! ## Claim C2 -/

/-- The initialization segment of `conjugate_gradient` (lines 54-62):
`residual = rhs - mat*x`, `p = precond.solve(residual)`,
`absNew = real(residual.dot(p))`, `i = 0`. -/
def cgInitState (matA precond : Vec → Vec) (rhs x : Vec) : CGLoopState :=
  { x := x
    residual := vecSub rhs (matA x)
    p := precond (vecSub rhs (matA x))
    absNew := dotQ (vecSub rhs (matA x)) (precond (vecSub rhs (matA x)))
    i := 0 }

/-- `absInit` (line 61): the initial value of `absNew`. -/
def cgAbsInit (matA precond : Vec → Vec) (rhs x : Vec) : ℚ :=
  (cgInitState matA precond rhs x).absNew

/-- `conjugate_gradient` in terms of the named initialization segment. -/
theorem conjugate_gradient_unfold (matA precond : Vec → Vec) (rhs x : Vec)
    (maxIters : Nat) (tol : ℚ) :
    conjugate_gradient matA precond rhs x maxIters tol
      = { x := (cgIter matA precond tol (cgAbsInit matA precond rhs x)
            maxIters (cgInitState matA precond rhs x)).x
          iters := (cgIter matA precond tol (cgAbsInit matA precond rhs x)
            maxIters (cgInitState matA precond rhs x)).i
          err := divAbsSqrt
            ((cgIter matA precond tol (cgAbsInit matA precond rhs x)
              maxIters (cgInitState matA precond rhs x)).absNew)
            (cgAbsInit matA precond rhs x) } := rfl

/-- Claim C2: the loop executes exactly while `i < maxIters` and
`absNew > tol² * absInit` — some `k ≤ maxIters` iterations run, the guard
held before each of them, and on exit the budget is exhausted or the guard
fails; the reported iteration count is `k`; the reported error is
`sqrt(|absNew/absInit|)` for the final `absNew`; and `absNew` is the
preconditioned residual inner product `real(r·z)`, initially and after
every step. -/
theorem c2_cg_loop_exactness (matA precond : Vec → Vec) (rhs x0 : Vec)
    (maxIters : Nat) (tol : ℚ) :
    ∃ k, k ≤ maxIters
      ∧ (conjugate_gradient matA precond rhs x0 maxIters tol).iters = k
      ∧ (∀ j, j < k → cgGuard tol (cgAbsInit matA precond rhs x0)
          ((cgStep matA precond)^[j] (cgInitState matA precond rhs x0)) = true)
      ∧ (k = maxIters ∨ cgGuard tol (cgAbsInit matA precond rhs x0)
          ((cgStep matA precond)^[k] (cgInitState matA precond rhs x0)) = false)
      ∧ (conjugate_gradient matA precond rhs x0 maxIters tol).err
          = divAbsSqrt
              (((cgStep matA precond)^[k] (cgInitState matA precond rhs x0)).absNew)
              (cgAbsInit matA precond rhs x0)
      ∧ (cgInitState matA precond rhs x0).absNew
          = dotQ (cgInitState matA precond rhs x0).residual
              (precond (cgInitState matA precond rhs x0).residual)
      ∧ (∀ s, (cgStep matA precond s).absNew
          = dotQ (cgStep matA precond s).residual
              (precond (cgStep matA precond s).residual)) := by
  obtain ⟨k, hk, heq, hall, hexit⟩ :=
    cgIter_spec matA precond tol (cgAbsInit matA precond rhs x0) maxIters
      (cgInitState matA precond rhs x0)
  refine ⟨k, hk, ?_, hall, hexit, ?_, rfl, fun s => cgStep_absNew matA precond s⟩
  · rw [conjugate_gradient_unfold]
    show (cgIter matA precond tol (cgAbsInit matA precond rhs x0)
      maxIters (cgInitState matA precond rhs x0)).i = k
    rw [heq, cgStep_iterate_i]
    have h0 : (cgInitState matA precond rhs x0).i = 0 := rfl
    omega
  · rw [conjugate_gradient_unfold]
    show divAbsSqrt
        ((cgIter matA precond tol (cgAbsInit matA precond rhs x0)
          maxIters (cgInitState matA precond rhs x0)).absNew)
        (cgAbsInit matA precond rhs x0) = _
    rw [heq]

/-- On any initialized solver, `solve` never fails with `NotInitialized`
(its only other exit is the `DimensionMismatch` assertion). -/
theorem solve_ne_NotInitialized (s : CGSolver) (h : s.m_isInitialized = true)
    (b : Vec) : s.solve b ≠ Except.error EigenError.NotInitialized := by
  unfold CGSolver.solve
  rw [h]
  by_cases h2 : s.rowsOf = b.length
  · simp [h2]
  · simp [h2]

/-- On any initialized solver, `solveWithGuess` never fails with
`NotInitialized`. -/
theorem solveWithGuess_ne_NotInitialized (s : CGSolver)
    (h : s.m_isInitialized = true) (b x0 : Vec) :
    s.solveWithGuess b x0 ≠ Except.error EigenError.NotInitialized := by
  unfold CGSolver.solveWithGuess
  rw [h]
  by_cases h2 : s.rowsOf = b.length
  · simp [h2]
  · simp [h2]

/-! ## Claim C10 -/

/-- Claim C10: `compute(A)` performs no validation of `A` — it is a total
function that rebinds the stored matrix, rebuilds the preconditioner from
`A`, marks the solver initialized and returns the updated solver; after it,
`iterations`, `error`, `info`, `solve` and `solveWithGuess` never fail with
`NotInitialized`. -/
theorem c10_compute_initializes (pc : MatrixQ → (Vec → Vec)) (s : CGSolver)
    (A : MatrixQ) :
    CGSolver.compute pc s A
        = { s with mp_matrix := some A, m_precond := some (pc A),
                   m_isInitialized := true }
    ∧ (CGSolver.compute pc s A).m_isInitialized = true
    ∧ (CGSolver.compute pc s A).iterations = .ok s.m_iterations
    ∧ (CGSolver.compute pc s A).error = .ok s.m_error
    ∧ (CGSolver.compute pc s A).info = .ok s.m_info
    ∧ (∀ b, (CGSolver.compute pc s A).solve b
        ≠ .error EigenError.NotInitialized)
    ∧ (∀ b x0, (CGSolver.compute pc s A).solveWithGuess b x0
        ≠ .error EigenError.NotInitialized) := by
  refine ⟨rfl, rfl, rfl, rfl, rfl, ?_, ?_⟩
  · exact fun b => solve_ne_NotInitialized _ rfl b
  · exact fun b x0 => solveWithGuess_ne_NotInitialized _ rfl b x0

/-! ## Claim C5 -/

/-- Claim C5: on an initialized solver, `solve(b)` and
`solveWithGuess(b, x0)` do not run the iterative algorithm — with
`A.rows() ≠ b.rows()` they fail with `DimensionMismatch` (the solver state
untouched, no destination written), otherwise they return the deferred
wrapper capturing exactly the solver, `b`, and optionally `x0`; the
wrapper's `evalTo(dst)` zeroes `dst` and runs `_solve` for the guess-free
form, and starts from `dst = x0` in place for the guess form. -/
theorem c5_solve_deferred (s : CGSolver) (A : MatrixQ)
    (hinit : s.m_isInitialized = true) (hmat : s.mp_matrix = some A) :
    (∀ b : Vec, A.rows ≠ b.length →
        s.solve b = .error EigenError.DimensionMismatch
          ∧ ∀ x0, s.solveWithGuess b x0 = .error EigenError.DimensionMismatch)
    ∧ (∀ b : Vec, A.rows = b.length →
        s.solve b = .ok { dec := s, rhs := b }
          ∧ ∀ x0, s.solveWithGuess b x0 = .ok { dec := s, rhs := b, guess := x0 })
    ∧ (∀ (w : SolveRetval) (dst : Vec),
        w.evalTo dst = w.dec._solve w.rhs (dst.map (fun _ => (0 : ℚ))))
    ∧ (∀ (w : SolveRetvalGuess) (dst : Vec),
        w.evalTo dst = w.dec._solve w.rhs w.guess) := by
  have hrw : s.rowsOf = A.rows := by
    unfold CGSolver.rowsOf
    rw [hmat]
  refine ⟨?_, ?_, fun w dst => rfl, fun w dst => rfl⟩
  · intro b hb
    constructor
    · unfold CGSolver.solve
      rw [hrw]
      simp [hinit, hb]
    · intro x0
      unfold CGSolver.solveWithGuess
      rw [hrw]
      simp [hinit, hb]
  · intro b hb
    constructor
    · unfold CGSolver.solve
      rw [hrw]
      simp [hinit, hb]
    · intro x0
      unfold CGSolver.solveWithGuess
      rw [hrw]
      simp [hinit, hb]

/-- The identity preconditioner factory: for any matrix, `solve(r) = r`
(the trivial default the spec requires to be supported). -/
def pcId : MatrixQ → (Vec → Vec) := fun _ => fun v => v

/-- A concrete 1 × 1 identity system matrix. -/
def AId : MatrixQ := { rows := 1, cols := 1, app := fun v => v }

/-- Witness for claim C5: on a concretely computed solver, a right-hand
side of the wrong length fails with `DimensionMismatch` and one of matching
length yields the deferred wrapper. -/
theorem c5_solve_deferred_witness :
    (CGSolver.compute pcId (CGSolver.mk0 0) AId).solve []
        = .error EigenError.DimensionMismatch
      ∧ (CGSolver.compute pcId (CGSolver.mk0 0) AId).solve [1]
        = .ok { dec := CGSolver.compute pcId (CGSolver.mk0 0) AId, rhs := [1] } :=
  ⟨((c5_solve_deferred (CGSolver.compute pcId (CGSolver.mk0 0) AId) AId
      rfl rfl).1 [] (by decide)).1,
   ((c5_solve_deferred (CGSolver.compute pcId (CGSolver.mk0 0) AId) AId
      rfl rfl).2.1 [1] (by decide)).1⟩

/-! ## Claim C3 -/

/-- Counterexample for claim C3: `iterations()` and `error()` do not fail
before any solve call — the accessors assert only `m_isInitialized`, which
`compute()` already sets (line 196), so on a solver that has seen `compute`
but never a solve they succeed (returning the still-indeterminate member). -/
theorem c3_uninitialized_access_counterexample :
    (CGSolver.compute pcId (CGSolver.mk0 0) AId).iterations
        ≠ Except.error EigenError.NotInitialized
      ∧ (CGSolver.compute pcId (CGSolver.mk0 0) AId).error
        ≠ Except.error EigenError.NotInitialized := by
  constructor
  · intro h
    exact Except.noConfusion h
  · intro h
    exact Except.noConfusion h

/-- Claim C3 (amended): `iterations()`, `error()` (and `solve()`) fail with
`NotInitialized` exactly while `m_isInitialized` is false — in particular on
a freshly constructed solver, where no `compute` has run; after `compute`
(even with no solve call yet) the accessors succeed. -/
theorem c3_uninitialized_access (eps : ℚ) (s : CGSolver) :
    ((CGSolver.mk0 eps).iterations = Except.error EigenError.NotInitialized)
    ∧ ((CGSolver.mk0 eps).error = Except.error EigenError.NotInitialized)
    ∧ ((CGSolver.mk0 eps).info = Except.error EigenError.NotInitialized)
    ∧ (∀ b, (CGSolver.mk0 eps).solve b = Except.error EigenError.NotInitialized)
    ∧ (∀ b x0, (CGSolver.mk0 eps).solveWithGuess b x0
        = Except.error EigenError.NotInitialized)
    ∧ (s.m_isInitialized = false →
        s.iterations = Except.error EigenError.NotInitialized
          ∧ s.error = Except.error EigenError.NotInitialized
          ∧ ∀ b, s.solve b = Except.error EigenError.NotInitialized)
    ∧ (s.m_isInitialized = true →
        s.iterations ≠ Except.error EigenError.NotInitialized
          ∧ s.error ≠ Except.error EigenError.NotInitialized) := by
  refine ⟨rfl, rfl, rfl, fun b => rfl, fun b x0 => rfl, ?_, ?_⟩
  · intro h
    refine ⟨?_, ?_, fun b => ?_⟩
    · unfold CGSolver.iterations
      rw [h]
      simp
    · unfold CGSolver.error
      rw [h]
      simp
    · unfold CGSolver.solve
      rw [h]
      simp
  · intro h
    constructor
    · unfold CGSolver.iterations
      rw [h]
      simp
    · unfold CGSolver.error
      rw [h]
      simp

/-- Witness for claim C3 (amended): a freshly constructed solver fails with
`NotInitialized` while a computed-but-never-solved solver does not. -/
theorem c3_uninitialized_access_witness :
    (CGSolver.mk0 0).iterations = Except.error EigenError.NotInitialized
      ∧ (CGSolver.compute pcId (CGSolver.mk0 0) AId).iterations
          ≠ Except.error EigenError.NotInitialized :=
  ⟨(c3_uninitialized_access 0 (CGSolver.compute pcId (CGSolver.mk0 0) AId)).1,
   ((c3_uninitialized_access 0
      (CGSolver.compute pcId (CGSolver.mk0 0) AId)).2.2.2.2.2.2 rfl).1⟩

/-! ## Claim C1 -/

/-- `_solve` on a solver whose matrix pointer and preconditioner are known:
the match of the model reduced to the run of `conjugate_gradient`. -/
theorem solveRun_eq (s : CGSolver) (A : MatrixQ) (P : Vec → Vec)
    (hmat : s.mp_matrix = some A) (hpre : s.m_precond = some P) (b x : Vec) :
    s._solve b x
      = ({ s with
            m_iterations :=
              some (conjugate_gradient A.app P b x s.m_maxIterations s.m_tolerance).iters
            m_error :=
              some (conjugate_gradient A.app P b x s.m_maxIterations s.m_tolerance).err
            m_isInitialized := true
            m_info :=
              some (if (conjugate_gradient A.app P b x s.m_maxIterations
                      s.m_tolerance).err.leQ s.m_tolerance
                    then ComputationInfo.Success
                    else ComputationInfo.NoConvergence) },
          (conjugate_gradient A.app P b x s.m_maxIterations s.m_tolerance).x) := by
  unfold CGSolver._solve
  rw [hmat, hpre]

/-- The concretely computed solver of the degenerate C1 configuration:
the 1 × 1 identity system with tolerance `1/1000`. -/
def cgSolverC1 : CGSolver := CGSolver.compute pcId (CGSolver.mk0 (1 / 1000)) AId

/-- Counterexample for claim C1: a concrete exactly-consistent system
(`A` the 1 × 1 identity, `b = [1]`, `x0 = [1]`, so `b = A·x0` exactly and
`absInit = 0`).  Materializing `solveWithGuess(b, x0)` performs zero
iterations, but the reported error is `sqrt(|0/0|)` (NaN, not `0`) and
`info()` is `NoConvergence` (not `Converged`), because `NaN <= tolerance`
is false. -/
theorem c1_degenerate_residual_counterexample :
    cgSolverC1.solveWithGuess [1] [1]
        = Except.ok { dec := cgSolverC1, rhs := [1], guess := [1] }
      ∧ ((SolveRetvalGuess.mk cgSolverC1 [1] [1]).evalTo [0]).1.m_iterations
          = some 0
      ∧ ((SolveRetvalGuess.mk cgSolverC1 [1] [1]).evalTo [0]).1.m_error
          = some CGErr.nan
      ∧ ((SolveRetvalGuess.mk cgSolverC1 [1] [1]).evalTo [0]).1.m_info
          = some ComputationInfo.NoConvergence
      ∧ CGErr.nan ≠ CGErr.sqrtOf 0
      ∧ ComputationInfo.NoConvergence ≠ ComputationInfo.Success := by
  have habs : cgAbsInit AId.app (pcId AId) [1] [1] = 0 :=
    dotQ_sub_self_left [1] (pcId AId (vecSub [1] (AId.app [1])))
  have habs2 : (cgInitState AId.app (pcId AId) [1] [1]).absNew = 0 := habs
  have hguard : cgGuard cgSolverC1.m_tolerance
      (cgAbsInit AId.app (pcId AId) [1] [1])
      (cgInitState AId.app (pcId AId) [1] [1]) = false := by
    unfold cgGuard
    rw [habs2, habs, mul_zero]
    simp
  have hout : conjugate_gradient AId.app (pcId AId) [1] [1]
      cgSolverC1.m_maxIterations cgSolverC1.m_tolerance
      = { x := [1], iters := 0, err := CGErr.nan } := by
    rw [conjugate_gradient_unfold,
      cgIter_guard_false AId.app (pcId AId) cgSolverC1.m_tolerance
        (cgAbsInit AId.app (pcId AId) [1] [1]) cgSolverC1.m_maxIterations
        (cgInitState AId.app (pcId AId) [1] [1]) hguard,
      habs2, habs]
    rfl
  have hev : ((SolveRetvalGuess.mk cgSolverC1 [1] [1]).evalTo [0])
      = ({ cgSolverC1 with
            m_iterations := some 0
            m_error := some CGErr.nan
            m_isInitialized := true
            m_info := some ComputationInfo.NoConvergence },
          [1]) := by
    show cgSolverC1._solve [1] [1] = _
    rw [solveRun_eq cgSolverC1 AId (pcId AId) rfl rfl [1] [1], hout]
    rfl
  refine ⟨rfl, ?_, ?_, ?_, fun h => CGErr.noConfusion h,
    fun h => ComputationInfo.noConfusion h⟩
  · rw [hev]
  · rw [hev]
  · rw [hev]

/-- Claim C1 (amended): when `b = A·x0` exactly (so `absInit = 0`),
materializing `solveWithGuess(b, x0)` performs zero iterations and leaves
the iterate at `x0`, reporting `iterations() == 0`; but the error estimate
is `sqrt(|0/0|)` — NaN — rather than `0`, and `info()` is `NoConvergence`
rather than `Converged`, since `NaN <= tolerance` is false.  The degenerate
case is not special-cased by the code. -/
theorem c1_degenerate_residual_amended (s : CGSolver) (A : MatrixQ)
    (P : Vec → Vec) (b x0 dst : Vec)
    (hinit : s.m_isInitialized = true)
    (hmat : s.mp_matrix = some A)
    (hpre : s.m_precond = some P)
    (hdim : A.rows = b.length)
    (hexact : b = A.app x0) :
    s.solveWithGuess b x0 = Except.ok { dec := s, rhs := b, guess := x0 }
    ∧ (({ dec := s, rhs := b, guess := x0 } : SolveRetvalGuess).evalTo dst).2 = x0
    ∧ (({ dec := s, rhs := b, guess := x0 } : SolveRetvalGuess).evalTo
        dst).1.m_iterations = some 0
    ∧ (({ dec := s, rhs := b, guess := x0 } : SolveRetvalGuess).evalTo
        dst).1.m_error = some CGErr.nan
    ∧ (({ dec := s, rhs := b, guess := x0 } : SolveRetvalGuess).evalTo
        dst).1.m_info = some ComputationInfo.NoConvergence
    ∧ (({ dec := s, rhs := b, guess := x0 } : SolveRetvalGuess).evalTo
        dst).1.iterations = Except.ok (some 0)
    ∧ (({ dec := s, rhs := b, guess := x0 } : SolveRetvalGuess).evalTo
        dst).1.error = Except.ok (some CGErr.nan)
    ∧ (({ dec := s, rhs := b, guess := x0 } : SolveRetvalGuess).evalTo
        dst).1.info = Except.ok (some ComputationInfo.NoConvergence) := by
  have habs : cgAbsInit A.app P b x0 = 0 := by
    show dotQ (vecSub b (A.app x0)) (P (vecSub b (A.app x0))) = 0
    rw [← hexact]
    exact dotQ_sub_self_left b _
  have habs2 : (cgInitState A.app P b x0).absNew = 0 := habs
  have hguard : cgGuard s.m_tolerance (cgAbsInit A.app P b x0)
      (cgInitState A.app P b x0) = false := by
    unfold cgGuard
    rw [habs2, habs, mul_zero]
    simp
  have hout : conjugate_gradient A.app P b x0 s.m_maxIterations s.m_tolerance
      = { x := x0, iters := 0, err := CGErr.nan } := by
    rw [conjugate_gradient_unfold,
      cgIter_guard_false A.app P s.m_tolerance (cgAbsInit A.app P b x0)
        s.m_maxIterations (cgInitState A.app P b x0) hguard,
      habs2, habs]
    rfl
  have hev : (({ dec := s, rhs := b, guess := x0 } : SolveRetvalGuess).evalTo dst)
      = ({ s with
            m_iterations := some 0
            m_error := some CGErr.nan
            m_isInitialized := true
            m_info := some ComputationInfo.NoConvergence },
          x0) := by
    show s._solve b x0 = _
    rw [solveRun_eq s A P hmat hpre b x0, hout]
    rfl
  have hsolve : s.solveWithGuess b x0
      = Except.ok { dec := s, rhs := b, guess := x0 } := by
    unfold CGSolver.solveWithGuess CGSolver.rowsOf
    rw [hinit, hmat]
    simp [hdim]
  rw [hev, hsolve]
  exact ⟨rfl, rfl, rfl, rfl, rfl, rfl, rfl, rfl⟩

/-- Witness for claim C1 (amended): the general theorem applied to the
concrete degenerate system of the counterexample input. -/
theorem c1_degenerate_residual_witness :
    CGSolver.solveWithGuess cgSolverC1 [1] [1]
        = Except.ok { dec := cgSolverC1, rhs := [1], guess := [1] }
      ∧ (({ dec := cgSolverC1, rhs := [1], guess := [1] } :
            SolveRetvalGuess).evalTo [0]).2 = [1] :=
  ⟨(c1_degenerate_residual_amended cgSolverC1 AId (pcId AId)
      [1] [1] [0] rfl rfl rfl (by decide) rfl).1,
   (c1_degenerate_residual_amended cgSolverC1 AId (pcId AId)
      [1] [1] [0] rfl rfl rfl (by decide) rfl).2.1⟩

end EigenModel
